import Mathlib

/-!
# Verification of the rudelblinken-rs core against its specification

Shallow embedding of the rudelblinken-rs repository (flash filesystem,
BLE file-upload protocol, WebAssembly host) in Lean 4, together with
theorems settling the claims C1 to C10.

Conventions:
* Rust machine integers are modelled as natural numbers together with
  explicit reductions modulo the word size at the points where the Rust
  code casts or where wrapping can occur (release-build semantics).
* Fallible Rust code is modelled with Except; a Rust panic (out of
  bounds indexing, division by zero) is modelled as the value none of
  an outer Option layer.
* BTreeMap of u16 to u16 is modelled as an association list sorted by
  key; the operations below implement exactly the BTreeMap operations
  used by the source.
-/

namespace Rudelblinken

/-- Truncating cast to u16, as in the Rust expression x as u16. -/
def u16 (x : ℕ) : ℕ := x % 65536

/-- Wrapping u16 subtraction. For operands below 65536 this is the value
computed by a release-mode Rust u16 subtraction; when no underflow occurs
it agrees with ordinary subtraction. -/
def wsub16 (a b : ℕ) : ℕ := if b ≤ a then a - b else (a + 65536 - b) % 65536

/-- Wrapping usize subtraction (release-mode semantics of a - b on usize). -/
def usizeSub (a b : ℕ) : ℕ :=
  if b ≤ a then a - b else (a + 18446744073709551616 - b) % 18446744073709551616

/-- Rust Nat::div_ceil: ceiling division. -/
def divCeil (a b : ℕ) : ℕ := (a + b - 1) / b

/-! ## The free-range map

The source keeps free space in a BTreeMap from u16 start block to u16
length in blocks. We model it as a list of key-value pairs kept sorted by
key (the order BTreeMap iterates in). -/

/-- Free-range map: (start, length) pairs sorted by start. -/
abbrev Ranges := List (ℕ × ℕ)

/-- BTreeMap::insert on the sorted association list (replaces the value if
the key is present). -/
def rInsert (k v : ℕ) : Ranges → Ranges
  | [] => [(k, v)]
  | (k₁, v₁) :: t =>
    if k < k₁ then (k, v) :: (k₁, v₁) :: t
    else if k = k₁ then (k, v) :: t
    else (k₁, v₁) :: rInsert k v t

/-- BTreeMap::remove on the association list (keys are unique). -/
def rRemove (k : ℕ) (l : Ranges) : Ranges := l.filter (fun p => p.1 != k)

/-- BTreeMap::range((Included 0, Included k)).last(): the entry with the
greatest key at most k. -/
def rFindLE (k : ℕ) (l : Ranges) : Option (ℕ × ℕ) :=
  (l.filter (fun p => decide (p.1 ≤ k))).getLast?

/-- One comparison step of Iterator::max_by comparing range lengths.
Keeping the later element when lengths tie mirrors Rust max_by, which
returns the last of several maximal elements. -/
def maxStep (acc : Option (ℕ × ℕ)) (p : ℕ × ℕ) : Option (ℕ × ℕ) :=
  match acc with
  | none => some p
  | some q => if q.2 ≤ p.2 then some p else some q

/-- Iterator::max_by over the map entries comparing lengths. -/
def maxByLen (l : Ranges) : Option (ℕ × ℕ) :=
  l.foldl maxStep none

/-! ## Filesystem catalog and find_free_space

From src/rudelblinken-filesystem/src/lib.rs. A catalog entry keeps the
fields of FileInformation that the filesystem operations consult. The
strong counter and the marked flag stand for the state of the in-memory
FileContent handle, whose reference-counting implementation file is not
part of the sources; they are modelled from the spec (section 4.2
Reference counts): strong counts the Reader holders and marked records
MARKED_FOR_DELETION. -/

/-- One catalog entry (FileInformation): flash address, content length in
bytes, name bytes, outstanding strong references, marked-for-deletion. -/
structure FsEntry where
  address : ℕ
  length : ℕ
  name : List ℕ
  strong : ℕ
  marked : Bool
deriving DecidableEq

/-- Filesystem state: the catalog vector of the Filesystem struct. -/
structure FsState where
  files : List FsEntry
deriving DecidableEq

/-- The error type FindFreeSpaceError of the source. -/
inductive FindFreeSpaceError where
  | FilesystemError
  | NoFreeSpace
  | NotEnoughSpace
deriving DecidableEq

/-- The four match arms of the catalog walk (lib.rs lines 167-182):
update the free-range map given the surrounding range start s, the file
start and end blocks, and the computed space before and after. The
insert keys are the literal keys of the source. -/
def fsCarve (ranges : Ranges) (s startBlock endBlock spaceBefore spaceAfter : ℕ) :
    Ranges :=
  if spaceBefore = 0 ∧ spaceAfter = 0 then rRemove s ranges
  else if spaceBefore = 0 then rInsert endBlock spaceAfter (rRemove s ranges)
  else if spaceAfter = 0 then rInsert startBlock spaceBefore ranges
  else rInsert endBlock spaceAfter (rInsert startBlock spaceBefore ranges)

/-- The end block of the occupied interval of a file: start plus
ceil((length + 64) / BLOCK_SIZE) blocks, u16 arithmetic throughout. -/
def fsEndBlock (bs : ℕ) (f : FsEntry) : ℕ :=
  u16 (u16 f.address + u16 (divCeil (f.length + 64) bs))

/-- One iteration of the catalog walk in Filesystem::find_free_space:
carve the occupied interval of one file out of the free-range map.
Mirrors lib.rs lines 151-187 including the u16 casts: start_block is
file.address as u16, space_before is start_block - surrounding_start and
space_after is (surrounding_start + surrounding_length) - end_block. -/
def fsStep (bs : ℕ) (ranges : Ranges) (f : FsEntry) :
    Except FindFreeSpaceError Ranges :=
  match rFindLE (u16 f.address) ranges with
  | none => .error .FilesystemError
  | some (s, l) =>
    .ok (fsCarve ranges s (u16 f.address) (fsEndBlock bs f)
      (wsub16 (u16 f.address) s)
      (wsub16 (u16 (s + l)) (fsEndBlock bs f)))

/-- The catalog walk of find_free_space over all files. -/
def fsBuild (bs : ℕ) (files : List FsEntry) (ranges : Ranges) :
    Except FindFreeSpaceError Ranges :=
  match files with
  | [] => .ok ranges
  | f :: rest =>
    match fsStep bs ranges f with
    | .error e => .error e
    | .ok r => fsBuild bs rest r

/-- The start key of the last free range,
free_ranges.last_key_value().map_or(0, ...). -/
def lastStart (ranges : Ranges) : ℕ := (ranges.getLast?).elim 0 (fun p => p.1)

/-- Trimming of the free range at block 0 during the wraparound fixup:
its new length is first_range_length - wraparound_length, inserted at key
wraparound_length unless the new length is zero. -/
def wrapTrim (wrap firstLen : ℕ) (r : Ranges) : Ranges :=
  if wsub16 firstLen wrap = 0 then r else rInsert wrap (wsub16 firstLen wrap) r

/-- The wraparound fixup of find_free_space (lib.rs lines 189-206).
The wraparound length is last_start saturating-minus BLOCKS as u16; when
it is positive, the source requires the first free range to start at
block 0 (else FilesystemError), removes it, inserts its trimmed
remainder, and re-inserts the last range with length
BLOCKS as u16 - last_start (wrapping u16 subtraction). -/
def fsWrapFix (blocks : ℕ) (ranges : Ranges) :
    Except FindFreeSpaceError Ranges :=
  if lastStart ranges - u16 blocks = 0 then .ok ranges
  else
    match ranges.head? with
    | some (0, firstLen) =>
      .ok (rInsert (lastStart ranges) (wsub16 (u16 blocks) (lastStart ranges))
        (wrapTrim (lastStart ranges - u16 blocks) firstLen (rRemove 0 ranges)))
    | _ => .error .FilesystemError

/-- The free-range map computed by find_free_space: initial entry
(0, BLOCKS as u16 * 2), the catalog walk, then the wraparound fixup. -/
def fsRanges (bs blocks : ℕ) (files : List FsEntry) :
    Except FindFreeSpaceError Ranges :=
  match fsBuild bs files [(0, u16 (u16 blocks * 2))] with
  | .error e => .error e
  | .ok r => fsWrapFix blocks r

/-- Filesystem::find_free_space (lib.rs lines 142-222): build the
free-range map, take the longest range, fail with NotEnoughSpace if it is
shorter in bytes than the request, and return its start address. -/
def findFreeSpace (bs blocks : ℕ) (files : List FsEntry) (length : ℕ) :
    Except FindFreeSpaceError ℕ :=
  match fsRanges bs blocks files with
  | .error e => .error e
  | .ok r =>
    match maxByLen r with
    | none => .error .NoFreeSpace
    | some (s, l) =>
      if l * bs < length then .error .NotEnoughSpace
      else .ok (s * bs)

/-- The no-intersection property claimed for find_free_space: two block
ranges, taken modulo the block count (wrap-around), share a block. -/
def ringIntersects (blocks aStart aLen bStart bLen : ℕ) : Bool :=
  (List.range aLen).any (fun i =>
    (List.range bLen).any (fun j =>
      (aStart + i) % blocks == (bStart + j) % blocks))

/-! ## Deletion, cleanup and write_file -/

/-- Modelled from the spec: File::no_strong_references_left of the
in-memory file handle (the handle implementation file is not under the
sources). Per section 4.3 (Delete and Cleanup) an entry becomes
reclaimable exactly when it is marked for deletion and its strong count
has reached zero; fresh catalog entries (never deleted) are kept. -/
def noStrongRefsLeft (f : FsEntry) : Bool := f.marked && f.strong == 0

/-- Vec::swap_remove(i): remove index i, moving the last element into its
place. Callers only use indices below the length. -/
def swapRemove {α : Type} (l : List α) (i : ℕ) : List α :=
  match l.getLast? with
  | none => l
  | some last => if i + 1 = l.length then l.dropLast else l.dropLast.set i last

/-- The error type DeleteFileError of the source. -/
inductive DeleteFileError where
  | EraseStorageError
  | FileNotFound
deriving DecidableEq

/-- Modelled from the spec: marking an entry for deletion
(FileContent::mark_for_deletion sets the MARKED_FOR_DELETION flag and the
catalog entry drops its weak content handle). -/
def markEntry (f : FsEntry) : FsEntry := { f with marked := true }

/-- iter().enumerate().find: the first index from i whose entry satisfies
the test. -/
def findIdxFrom (p : FsEntry → Bool) : List FsEntry → ℕ → Option ℕ
  | [], _ => none
  | f :: t, i => if p f then some i else findIdxFrom p t (i + 1)

/-- The first index whose entry satisfies the test. -/
def findIdxQ (p : FsEntry → Bool) (l : List FsEntry) : Option ℕ :=
  findIdxFrom p l 0

/-- Filesystem::delete_file (lib.rs lines 275-293): locate the first
catalog entry with the given name, mark it for deletion, and remove it
from the catalog immediately only when no strong references remain. -/
def deleteFile (st : FsState) (n : List ℕ) : Except DeleteFileError FsState :=
  match findIdxQ (fun f => f.name == n) st.files with
  | none => .error .FileNotFound
  | some i =>
    let files₁ := st.files.set i (markEntry (st.files.getD i ⟨0, 0, [], 0, false⟩))
    if (files₁.getD i ⟨0, 0, [], 0, false⟩).strong = 0 then
      .ok ⟨swapRemove files₁ i⟩
    else
      .ok ⟨files₁⟩

/-- Filesystem::cleanup_files (lib.rs lines 296-306): collect the indices
of entries with no strong references left in ascending order, then
swap_remove them in reverse order. -/
def cleanupFiles (st : FsState) : FsState :=
  let idxs := (List.range st.files.length).filter
    (fun i => noStrongRefsLeft (st.files.getD i ⟨0, 0, [], 0, false⟩))
  ⟨idxs.reverse.foldl (fun fs i => swapRemove fs i) st.files⟩

/-- The error type WriteFileError of the source (storage failures are
collapsed into one constructor; the claims only distinguish success). -/
inductive WriteFileError where
  | findFreeSpaceError (e : FindFreeSpaceError)
  | fileNameTooLong
  | writeStorageError
  | readFileDoesNotMatch
deriving DecidableEq

/-- Filesystem::write_file (lib.rs lines 224-266): run the cleanup sweep,
check the name length, find free space for content plus the 64 byte
metadata header, write the metadata and the content to storage, and push
the new catalog entry. Storage::write is modelled from the spec (section
4.1): a write fails when it reaches past SIZE = BLOCK_SIZE * BLOCK_COUNT.
The read-back verification of the source always succeeds here because the
model storage holds exactly what was written. Returns the mutated state
together with the error, mirroring the &mut self receiver. -/
def writeFile (bs blocks : ℕ) (st : FsState) (n : List ℕ) (contentLen : ℕ) :
    FsState × Option WriteFileError :=
  let st₁ := cleanupFiles st
  if 16 < n.length then (st₁, some .fileNameTooLong)
  else
    match findFreeSpace bs blocks st₁.files (contentLen + 64) with
    | .error e => (st₁, some (.findFreeSpaceError e))
    | .ok loc =>
      if bs * blocks < loc + 64 then (st₁, some .writeStorageError)
      else if bs * blocks < loc + 64 + contentLen then (st₁, some .writeStorageError)
      else (⟨st₁.files ++ [⟨loc, contentLen, n, 0, false⟩]⟩, none)

/-- Modelled from the spec: dropping one Reader (strong reference) of the
named file decrements its strong count (section 4.2, Reference counts). -/
def dropStrongRef (st : FsState) (n : List ℕ) : FsState :=
  match findIdxQ (fun f => f.name == n) st.files with
  | none => st
  | some i =>
    let f := st.files.getD i ⟨0, 0, [], 0, false⟩
    ⟨st.files.set i { f with strong := f.strong - 1 }⟩

/-! ## Mounting (Filesystem::new)

The scan loop of Filesystem::new (lib.rs lines 108-121). Reading one
FileMetadata from storage (File::from_storage) happens in a file that is
not part of the sources, so the parser is abstracted into a function from
block index to an optional content length: some means a valid file of
that length parses at the block, none means the block does not hold valid
metadata. The loop is written with an explicit iteration budget; each
iteration advances block_number by at least one, so a budget equal to
BLOCKS covers every run of the source loop. -/

/-- The while loop of Filesystem::new. On a parsed file of length len the
source advances block_number by (len + 64) / BLOCK_SIZE + 1 (floor
division plus one). Records (block index, length) for every file pushed
into the catalog. -/
def mountScanGo (parse : ℕ → Option ℕ) (firstBlock blocks bs : ℕ) :
    ℕ → ℕ → List (ℕ × ℕ)
  | 0, _ => []
  | gas + 1, bn =>
    if bn < blocks then
      match parse ((bn + firstBlock) % blocks) with
      | none => mountScanGo parse firstBlock blocks bs gas (bn + 1)
      | some len =>
        ((bn + firstBlock) % blocks, len) ::
          mountScanGo parse firstBlock blocks bs gas (bn + ((len + 64) / bs + 1))
    else []

/-- The catalog produced by the scan of Filesystem::new. -/
def mountScan (parse : ℕ → Option ℕ) (firstBlock blocks bs : ℕ) :
    List (ℕ × ℕ) :=
  mountScanGo parse firstBlock blocks bs blocks 0

/-- The scan as worded by claim C3: on a parsed file advance by exactly
ceil((length + 64) / BLOCK_SIZE) blocks. The max with one keeps the
iteration budget argument valid and is the identity whenever BLOCK_SIZE
is positive, since length + 64 is positive. -/
def claimScanGo (parse : ℕ → Option ℕ) (firstBlock blocks bs : ℕ) :
    ℕ → ℕ → List (ℕ × ℕ)
  | 0, _ => []
  | gas + 1, bn =>
    if bn < blocks then
      match parse ((bn + firstBlock) % blocks) with
      | none => claimScanGo parse firstBlock blocks bs gas (bn + 1)
      | some len =>
        ((bn + firstBlock) % blocks, len) ::
          claimScanGo parse firstBlock blocks bs gas
            (bn + max 1 (divCeil (len + 64) bs))
    else []

/-- Top level of the claim C3 scan. -/
def claimScan (parse : ℕ → Option ℕ) (firstBlock blocks bs : ℕ) :
    List (ℕ × ℕ) :=
  claimScanGo parse firstBlock blocks bs blocks 0

/-- The scan as worded by the amended claim C3: advance by
ceil((length + 64) / BLOCK_SIZE) blocks except when length + 64 is an
exact multiple of BLOCK_SIZE, where the advance is one block more. -/
def amendedScanGo (parse : ℕ → Option ℕ) (firstBlock blocks bs : ℕ) :
    ℕ → ℕ → List (ℕ × ℕ)
  | 0, _ => []
  | gas + 1, bn =>
    if bn < blocks then
      match parse ((bn + firstBlock) % blocks) with
      | none => amendedScanGo parse firstBlock blocks bs gas (bn + 1)
      | some len =>
        ((bn + firstBlock) % blocks, len) ::
          amendedScanGo parse firstBlock blocks bs gas
            (bn + max 1 (if (len + 64) % bs = 0 then (len + 64) / bs + 1
                         else divCeil (len + 64) bs))
    else []

/-- Top level of the amended claim C3 scan. -/
def amendedScan (parse : ℕ → Option ℕ) (firstBlock blocks bs : ℕ) :
    List (ℕ × ℕ) :=
  amendedScanGo parse firstBlock blocks bs blocks 0

/-! ## The BLE file-upload service

From src/rudelblinken-firmware/src/file_upload_service.rs. -/

/-- One shift step of CRC-8 with polynomial 0x9B, most significant bit
first, no reflection (the CRC_8_LTE parameters of the crc crate, also
fixed by spec section 6.4). -/
def crc8Step (c : ℕ) : ℕ :=
  if c &&& 128 = 128 then ((c <<< 1) ^^^ 155) &&& 255 else (c <<< 1) &&& 255

/-- CRC-8 LTE over a byte list: xor each byte into the register, then
eight shift steps; initial value 0, no output xor. This models the call
crc::Crc::<u8>::new(&crc::CRC_8_LTE).checksum(data). -/
def crc8lte (data : List ℕ) : ℕ :=
  data.foldl (fun c b => crc8Step^[8] (c ^^^ (b &&& 255))) 0

/-- The error type ReceiveChunkError of the source. -/
inductive ReceiveChunkError where
  | InvalidLength
  | WrongChecksum
deriving DecidableEq

/-- The state of IncompleteFile. The File writer is abstracted into the
log of (offset, bytes) writes it has performed: receive_chunk only seeks
and writes, and the claims are about which write is issued. -/
structure IncompleteFile where
  checksums : List ℕ
  receivedChunks : List Bool
  chunkLength : ℕ
  length : ℕ
  hash : List ℕ
  writes : List (ℕ × List ℕ)
deriving DecidableEq

/-- IncompleteFile::new: fresh received bitmap sized by the checksums. -/
def IncompleteFile.new (hash : List ℕ) (checksums : List ℕ)
    (chunkLength : ℕ) (length : ℕ) : IncompleteFile :=
  { checksums := checksums
    receivedChunks := List.replicate checksums.length false
    chunkLength := chunkLength
    length := length
    hash := hash
    writes := [] }

/-- The checksum comparison and write of receive_chunk, after the two
length checks. Indexing checksums[index] and received_chunks[index] out
of bounds is a Rust panic, modelled as none. -/
def receiveChunkRest (f : IncompleteFile) (data : List ℕ) (index : ℕ) :
    Option (Except ReceiveChunkError IncompleteFile) :=
  match f.checksums[index]? with
  | none => none
  | some c =>
    if c ≠ crc8lte data then some (.error .WrongChecksum)
    else if index < f.receivedChunks.length then
      some (.ok { f with
        writes := f.writes ++ [(f.chunkLength * index, data)]
        receivedChunks := f.receivedChunks.set index true })
    else none

/-- IncompleteFile::receive_chunk (file_upload_service.rs lines 103-135).
The last-chunk position is checksums.len() - 1 with wrapping usize
subtraction; the expected last-chunk length is length mod chunk_length,
whose Rust evaluation panics when chunk_length is zero (modelled as
none). On success the chunk is written at offset chunk_length * index and
the received bit is set. -/
def receiveChunk (f : IncompleteFile) (data : List ℕ) (index : ℕ) :
    Option (Except ReceiveChunkError IncompleteFile) :=
  if index ≠ usizeSub f.checksums.length 1 ∧ data.length ≠ f.chunkLength then
    some (.error .InvalidLength)
  else if index = usizeSub f.checksums.length 1 then
    if f.chunkLength = 0 then none
    else if data.length ≠ f.length % f.chunkLength then
      some (.error .InvalidLength)
    else receiveChunkRest f data index
  else receiveChunkRest f data index

/-- Modelled from the spec: UpgradeFileError of the missing file handle
implementation (upgrading a weak handle can fail). Only its existence
matters to the claims. -/
inductive UpgradeFileError where
  | upgradeFailed
deriving DecidableEq

/-- The error type FileUploadError of the source (constructors restricted
to the ones the claims mention, with their payloads). -/
inductive FileUploadError where
  | ReceiveChunkError (e : ReceiveChunkError)
  | NoUploadActive
  | ReceivedChunkWayTooShort
  | ChecksumFileDoesNotExist
  | FailedToReadChecksums (e : UpgradeFileError)
  | WrongNumberOfChecksums (expected got : ℕ)
  | FailedToCreateFile
deriving DecidableEq

/-- FileUploadService::load_checksums (file_upload_service.rs lines
364-393). The filesystem lookup get_file followed by upgrade is
abstracted into one function from the 32 hash bytes to: none when no file
with that hash exists, some (error e) when the upgrade fails, and
some (ok content) for a readable file with the given content bytes. -/
def loadChecksums (getFile : List ℕ → Option (Except UpgradeFileError (List ℕ)))
    (checksums : List ℕ) (chunkCount : ℕ) :
    Except FileUploadError (List ℕ) :=
  if chunkCount ≤ 32 then .ok (checksums.take chunkCount)
  else
    match getFile checksums with
    | none => .error .ChecksumFileDoesNotExist
    | some (.error e) => .error (.FailedToReadChecksums e)
    | some (.ok content) =>
      if content.length ≠ chunkCount then
        .error (.WrongNumberOfChecksums chunkCount content.length)
      else .ok content

/-- The upload request (spec section 6.2 wire format). -/
structure UploadRequest where
  hash : List ℕ
  checksums : List ℕ
  fileSize : ℕ
  chunkSize : ℕ
deriving DecidableEq

/-- Modelled from the spec: UploadRequest::chunk_count (the request
module is not under the sources); section 6.2 fixes
chunk_count = ceil(file_size / chunk_size). -/
def UploadRequest.chunkCount (r : UploadRequest) : ℕ :=
  divCeil r.fileSize r.chunkSize

/-- FileUploadService::start_upload (file_upload_service.rs lines
226-253): load the checksums for the request, then allocate a file
writer and build the IncompleteFile session. The writer allocation
(Filesystem::get_file_writer, whose implementation is a stub in the
sources) is abstracted into its result alloc. -/
def startUpload (getFile : List ℕ → Option (Except UpgradeFileError (List ℕ)))
    (alloc : Except FileUploadError Unit) (req : UploadRequest) :
    Except FileUploadError IncompleteFile :=
  match loadChecksums getFile req.checksums req.chunkCount with
  | .error e => .error e
  | .ok cks =>
    match alloc with
    | .error e => .error e
    | .ok _ => .ok (IncompleteFile.new req.hash cks req.chunkSize req.fileSize)

/-! ## The WebAssembly host -/

/-- Host events delivered to the guest during yield
(wasm_host.rs HostEvent); BLE advertisements are abstract values. -/
inductive HostEvent where
  | bleEvent (e : ℕ)
  | programChanged
deriving DecidableEq

/-- The guest-visible sandbox state during a yield: current fuel and the
record of on_event calls, each with the fuel installed at entry. -/
structure GuestState where
  fuel : ℕ
  calls : List (ℕ × ℕ)
deriving DecidableEq

/-- The event-drain loop inside WasmHost::yield_now (wasm_host.rs lines
157-180). For a BLE event: record the current fuel, set the fuel to
reset_fuel, run the guest callback (abstracted into onEvent, which
returns none when the callback traps), then restore the recorded fuel.
A ProgramChanged event returns the termination error. The timed outer
loop is abstracted into processing the finite list of events that arrive
during the yield window. -/
def processEvents (resetFuel : ℕ) (onEvent : ℕ → ℕ → Option ℕ) :
    List HostEvent → GuestState → Except String GuestState
  | [], st => .ok st
  | .programChanged :: _, _ => .error "Terminated as requested"
  | .bleEvent e :: rest, st =>
    let fuelBefore := st.fuel
    match onEvent e resetFuel with
    | none => .error "guest callback failed"
    | some _ =>
      processEvents resetFuel onEvent rest
        { fuel := fuelBefore, calls := st.calls ++ [(e, resetFuel)] }

/-- WasmHost::yield_now (wasm_host.rs lines 147-189): drain the events,
then set the fuel to reset_fuel and return reset_fuel. -/
def yieldNow (resetFuel : ℕ) (onEvent : ℕ → ℕ → Option ℕ)
    (events : List HostEvent) (st : GuestState) :
    Except String (ℕ × GuestState) :=
  match processEvents resetFuel onEvent events st with
  | .error e => .error e
  | .ok st₁ => .ok (resetFuel, { st₁ with fuel := resetFuel })

/-- WasmHostConfiguration::default (wasm_host.rs lines 101-107). -/
def defaultResetFuel : ℕ := 999999

/-- The calls a yield makes for a given event list when every callback
succeeds: one on_event call per BLE event, entered with resetFuel. -/
def bleCallsOf (resetFuel : ℕ) (events : List HostEvent) : List (ℕ × ℕ) :=
  events.filterMap (fun ev => match ev with
    | .bleEvent e => some (e, resetFuel)
    | .programChanged => none)

/-! ## get_name (wasm_host.rs lines 219-226) -/

/-- str::is_char_boundary over UTF-8 bytes: position 0 and the end are
boundaries, and an interior position is a boundary when its byte is not
a continuation byte (high bits 10). -/
def isCharBoundary (name : List ℕ) (i : ℕ) : Bool :=
  if i = 0 then true
  else match name[i]? with
    | none => i == name.length
    | some b => !(128 ≤ b && b ≤ 191)

/-- Largest boundary position at most i (downward search). -/
def floorBoundaryDown (name : List ℕ) : ℕ → ℕ
  | 0 => 0
  | j + 1 => if isCharBoundary name (j + 1) then j + 1 else floorBoundaryDown name j

/-- str::floor_char_boundary(i): the length for i past the end, otherwise
the largest char boundary at most i. -/
def floorCharBoundary (name : List ℕ) (i : ℕ) : ℕ :=
  if name.length ≤ i then name.length else floorBoundaryDown name i

/-- WasmHost::get_name over the stored device-name bytes: compute
closest = floor_char_boundary(16) and return name.split_off(closest),
which is the byte tail from position closest to the end (split_off
returns the second half and leaves the first half in place). -/
def getName (nameBytes : List ℕ) : List ℕ :=
  nameBytes.drop (floorCharBoundary nameBytes 16)

/-! ## The management-service name characteristic
(cat_management_service.rs lines 439-458) -/

/-- Continuation byte test for UTF-8 (high bits 10). -/
def utf8Cont (b : ℕ) : Bool := 128 ≤ b && b ≤ 191

/-- String::from_utf8 validity over a byte list (the RFC 3629 table used
by the Rust standard library: no overlongs, no surrogates, at most
U+10FFFF). -/
def validUtf8 : List ℕ → Bool
  | [] => true
  | b :: rest =>
    if b ≤ 127 then validUtf8 rest
    else if 194 ≤ b && b ≤ 223 then
      match rest with
      | c₁ :: r => utf8Cont c₁ && validUtf8 r
      | [] => false
    else if 224 ≤ b && b ≤ 239 then
      match rest with
      | c₁ :: c₂ :: r =>
        (if b = 224 then 160 ≤ c₁ && c₁ ≤ 191
         else if b = 237 then 128 ≤ c₁ && c₁ ≤ 159
         else utf8Cont c₁) && utf8Cont c₂ && validUtf8 r
      | _ => false
    else if 240 ≤ b && b ≤ 244 then
      match rest with
      | c₁ :: c₂ :: c₃ :: r =>
        (if b = 240 then 144 ≤ c₁ && c₁ ≤ 191
         else if b = 244 then 128 ≤ c₁ && c₁ ≤ 143
         else utf8Cont c₁) && utf8Cont c₂ && utf8Cont c₃ && validUtf8 r
      | _ => false
    else false

/-- The management-service state the name characteristic touches. -/
structure CatManagementState where
  name : List ℕ
deriving DecidableEq

/-- The on_write handler of the name characteristic: reject payloads of
at most 3 bytes, payloads longer than 32 bytes, and payloads that are
not valid UTF-8; otherwise store the payload as the new name. -/
def nameOnWrite (st : CatManagementState) (data : List ℕ) :
    CatManagementState :=
  if data.length ≤ 3 then st
  else if 32 < data.length then st
  else if validUtf8 data then ⟨data⟩ else st

/-! ## Helper lemmas about the free-range arithmetic -/

theorem u16_lt (x : ℕ) : u16 x < 65536 := Nat.mod_lt _ (by norm_num)

theorem u16_eq_of_lt {x : ℕ} (h : x < 65536) : u16 x = x := Nat.mod_eq_of_lt h

theorem wsub16_lt {a : ℕ} (b : ℕ) (h : a < 65536) : wsub16 a b < 65536 := by
  unfold wsub16
  split
  · omega
  · exact Nat.mod_lt _ (by norm_num)

theorem wsub16_of_le {a b : ℕ} (h : b ≤ a) : wsub16 a b = a - b := if_pos h

theorem mem_rInsert {p : ℕ × ℕ} {k v : ℕ} : ∀ {l : Ranges},
    p ∈ rInsert k v l → p = (k, v) ∨ p ∈ l := by
  intro l
  induction l with
  | nil =>
    intro h
    simp only [rInsert, List.mem_singleton] at h
    exact Or.inl h
  | cons q t ih =>
    intro h
    simp only [rInsert] at h
    split at h
    · rcases List.mem_cons.mp h with h₁ | h₁
      · exact Or.inl h₁
      · exact Or.inr h₁
    · split at h
      · rcases List.mem_cons.mp h with h₁ | h₁
        · exact Or.inl h₁
        · exact Or.inr (List.mem_cons_of_mem _ h₁)
      · rcases List.mem_cons.mp h with h₁ | h₁
        · exact Or.inr (List.mem_cons.mpr (Or.inl h₁))
        · rcases ih h₁ with h₂ | h₂
          · exact Or.inl h₂
          · exact Or.inr (List.mem_cons_of_mem _ h₂)

theorem mem_rRemove {p : ℕ × ℕ} {k : ℕ} {l : Ranges}
    (h : p ∈ rRemove k l) : p ∈ l := List.mem_of_mem_filter h

theorem mem_fsCarve {p : ℕ × ℕ} {r : Ranges} {s a b sb sa : ℕ}
    (hr : ∀ q ∈ r, q.2 < 65536) (hsb : sb < 65536) (hsa : sa < 65536)
    (hp : p ∈ fsCarve r s a b sb sa) : p.2 < 65536 := by
  unfold fsCarve at hp
  split_ifs at hp
  · exact hr p (mem_rRemove hp)
  · rcases mem_rInsert hp with h₁ | h₁
    · rw [h₁]; exact hsa
    · exact hr p (mem_rRemove h₁)
  · rcases mem_rInsert hp with h₁ | h₁
    · rw [h₁]; exact hsb
    · exact hr p h₁
  · rcases mem_rInsert hp with h₁ | h₁
    · rw [h₁]; exact hsa
    · rcases mem_rInsert h₁ with h₂ | h₂
      · rw [h₂]; exact hsb
      · exact hr p h₂

theorem fsStep_error {bs : ℕ} {r : Ranges} {f : FsEntry} {e : FindFreeSpaceError}
    (h : fsStep bs r f = .error e) : e = .FilesystemError := by
  unfold fsStep at h
  rcases hfind : rFindLE (u16 f.address) r with _ | ⟨s, l⟩ <;>
    simp only [hfind] at h
  · simpa using h.symm
  · simp at h

theorem fsStep_ok_lt {bs : ℕ} {r r₁ : Ranges} {f : FsEntry}
    (hr : ∀ p ∈ r, p.2 < 65536) (h : fsStep bs r f = .ok r₁) :
    ∀ p ∈ r₁, p.2 < 65536 := by
  unfold fsStep at h
  rcases hfind : rFindLE (u16 f.address) r with _ | ⟨s, l⟩ <;>
    simp only [hfind] at h
  · simp at h
  · simp only [Except.ok.injEq] at h
    subst h
    intro p hp
    exact mem_fsCarve hr (wsub16_lt _ (u16_lt _)) (wsub16_lt _ (u16_lt _)) hp

theorem fsBuild_error {bs : ℕ} {files : List FsEntry} {r : Ranges}
    {e : FindFreeSpaceError} (h : fsBuild bs files r = .error e) :
    e = .FilesystemError := by
  induction files generalizing r with
  | nil => simp [fsBuild] at h
  | cons f rest ih =>
    unfold fsBuild at h
    rcases hs : fsStep bs r f with e₁ | r₁ <;> rw [hs] at h
    · cases h; exact fsStep_error hs
    · exact ih h

theorem fsBuild_ok_lt {bs : ℕ} {files : List FsEntry} {r r₁ : Ranges}
    (hr : ∀ p ∈ r, p.2 < 65536) (h : fsBuild bs files r = .ok r₁) :
    ∀ p ∈ r₁, p.2 < 65536 := by
  induction files generalizing r with
  | nil =>
    simp only [fsBuild, Except.ok.injEq] at h
    subst h
    exact hr
  | cons f rest ih =>
    unfold fsBuild at h
    rcases hs : fsStep bs r f with e₁ | r₂ <;> rw [hs] at h
    · simp at h
    · exact ih (fsStep_ok_lt hr hs) h

theorem fsWrapFix_error {blocks : ℕ} {r : Ranges} {e : FindFreeSpaceError}
    (h : fsWrapFix blocks r = .error e) : e = .FilesystemError := by
  unfold fsWrapFix at h
  split at h
  · simp at h
  · split at h
    · simp at h
    · simpa using h.symm

theorem fsWrapFix_ok_lt {blocks : ℕ} {r r₁ : Ranges}
    (hr : ∀ p ∈ r, p.2 < 65536) (h : fsWrapFix blocks r = .ok r₁) :
    ∀ p ∈ r₁, p.2 < 65536 := by
  unfold fsWrapFix at h
  split at h
  · cases h; exact hr
  · split at h
    · rename_i firstLen hh
      simp only [Except.ok.injEq] at h
      subst h
      have hv : firstLen < 65536 := by
        rcases r with _ | ⟨q, t⟩
        · simp at hh
        · simp only [List.head?_cons, Option.some.injEq] at hh
          have := hr q (by simp)
          rw [hh] at this
          exact this
      intro p hp
      rcases mem_rInsert hp with h₁ | h₁
      · rw [h₁]; exact wsub16_lt _ (u16_lt _)
      · unfold wrapTrim at h₁
        split at h₁
        · exact hr p (mem_rRemove h₁)
        · rcases mem_rInsert h₁ with h₂ | h₂
          · rw [h₂]; exact wsub16_lt _ hv
          · exact hr p (mem_rRemove h₂)
    · simp at h

theorem fsRanges_error {bs blocks : ℕ} {files : List FsEntry}
    {e : FindFreeSpaceError} (h : fsRanges bs blocks files = .error e) :
    e = .FilesystemError := by
  unfold fsRanges at h
  rcases hb : fsBuild bs files [(0, u16 (u16 blocks * 2))] with e₁ | r <;>
    rw [hb] at h
  · cases h; exact fsBuild_error hb
  · exact fsWrapFix_error h

theorem fsRanges_ok_lt {bs blocks : ℕ} {files : List FsEntry} {r : Ranges}
    (h : fsRanges bs blocks files = .ok r) : ∀ p ∈ r, p.2 < 65536 := by
  unfold fsRanges at h
  rcases hb : fsBuild bs files [(0, u16 (u16 blocks * 2))] with e₁ | r₁ <;>
    rw [hb] at h
  · simp at h
  · have hinit : ∀ p ∈ ([(0, u16 (u16 blocks * 2))] : Ranges), p.2 < 65536 := by
      intro p hp
      simp only [List.mem_singleton] at hp
      rw [hp]
      exact u16_lt _
    exact fsWrapFix_ok_lt (fsBuild_ok_lt hinit hb) h

theorem maxStep_foldl_mem {t : Ranges} :
    ∀ {acc : Option (ℕ × ℕ)} {p : ℕ × ℕ},
      t.foldl maxStep acc = some p → p ∈ t ∨ acc = some p := by
  induction t with
  | nil => intro acc p h; exact Or.inr h
  | cons x t ih =>
    intro acc p h
    rw [List.foldl_cons] at h
    rcases ih h with h₁ | h₁
    · exact Or.inl (List.mem_cons_of_mem _ h₁)
    · rcases acc with _ | q
      · simp only [maxStep, Option.some.injEq] at h₁
        exact Or.inl (by simp [h₁])
      · simp only [maxStep] at h₁
        split at h₁
        · simp only [Option.some.injEq] at h₁
          exact Or.inl (by simp [h₁])
        · exact Or.inr h₁

theorem maxByLen_mem {l : Ranges} {p : ℕ × ℕ} (h : maxByLen l = some p) :
    p ∈ l := by
  rcases maxStep_foldl_mem h with h₁ | h₁
  · exact h₁
  · simp at h₁

theorem maxStep_foldl_ne_none {t : Ranges} :
    ∀ {acc : Option (ℕ × ℕ)}, acc ≠ none → t.foldl maxStep acc ≠ none := by
  induction t with
  | nil => intro acc h; exact h
  | cons x t ih =>
    intro acc h
    rw [List.foldl_cons]
    rcases acc with _ | q
    · exact ih (by simp [maxStep])
    · refine ih ?_
      simp only [maxStep]
      split <;> simp

theorem maxByLen_eq_none {l : Ranges} : maxByLen l = none ↔ l = [] := by
  constructor
  · intro h
    rcases l with _ | ⟨x, t⟩
    · rfl
    · refine absurd h ?_
      unfold maxByLen
      rw [List.foldl_cons]
      exact maxStep_foldl_ne_none (by simp [maxStep])
  · intro h; rw [h]; rfl

/-! ## Claim C1 -/

/-- C1: the claim states that an address returned by find_free_space is
block aligned and that its chosen block range never intersects the
occupied block range of a live catalog file, taken modulo BLOCK_COUNT.
The code violates this: with BLOCK_SIZE = 4096 and BLOCK_COUNT = 16, a
catalog holding one live file at address 0 covering all 16 blocks makes
find_free_space(1) return address 65536 (block 16); block 16 modulo 16
is block 0, inside the occupied range of the file. This theorem
evaluates the code at that failing input. -/
theorem c1_find_free_space_overlap :
    findFreeSpace 4096 16 [⟨0, 65472, [], 0, false⟩] 1 = .ok 65536 ∧
    65536 % 4096 = 0 ∧
    ringIntersects 16 (65536 / 4096) (divCeil 1 4096) 0
      (divCeil (65472 + 64) 4096) = true :=
  ⟨by rfl, by rfl, by rfl⟩

/-! ## Claim C4 -/

/-- C4 counterexample: the claim states that on any filesystem a request
longer than BLOCK_SIZE * BLOCK_COUNT bytes fails. With BLOCK_SIZE = 4096
and BLOCK_COUNT = 16 (so SIZE = 65536), on an empty catalog the request
of 65537 bytes is granted at address 0, because the initial free-range
canvas of the code spans 2 * BLOCK_COUNT blocks. -/
theorem c4_oversize_request_succeeds :
    findFreeSpace 4096 16 [] (4096 * 16 + 1) = .ok 0 := by rfl

/-- find_free_space unfolded into its three stages (definitional). -/
theorem ffs_cases (bs blocks : ℕ) (files : List FsEntry) (len : ℕ) :
    findFreeSpace bs blocks files len =
      match fsRanges bs blocks files with
      | .error e => .error e
      | .ok r =>
        match maxByLen r with
        | none => .error .NoFreeSpace
        | some (s, l) =>
          if l * bs < len then .error .NotEnoughSpace else .ok (s * bs) := rfl

theorem ffs_of_ranges_error {bs blocks len : ℕ} {files : List FsEntry}
    {e : FindFreeSpaceError} (hr : fsRanges bs blocks files = .error e) :
    findFreeSpace bs blocks files len = .error e := by
  rw [ffs_cases, hr]

theorem ffs_of_max_none {bs blocks len : ℕ} {files : List FsEntry} {r : Ranges}
    (hr : fsRanges bs blocks files = .ok r) (hm : maxByLen r = none) :
    findFreeSpace bs blocks files len = .error .NoFreeSpace := by
  rw [ffs_cases, hr]
  show (match maxByLen r with
    | none => Except.error FindFreeSpaceError.NoFreeSpace
    | some (s, l) =>
      if l * bs < len then Except.error FindFreeSpaceError.NotEnoughSpace
      else Except.ok (s * bs)) = _
  rw [hm]

theorem ffs_of_max_some {bs blocks len : ℕ} {files : List FsEntry} {r : Ranges}
    {s l : ℕ} (hr : fsRanges bs blocks files = .ok r)
    (hm : maxByLen r = some (s, l)) :
    findFreeSpace bs blocks files len =
      if l * bs < len then .error .NotEnoughSpace else .ok (s * bs) := by
  rw [ffs_cases, hr]
  show (match maxByLen r with
    | none => Except.error FindFreeSpaceError.NoFreeSpace
    | some (s, l) =>
      if l * bs < len then Except.error FindFreeSpaceError.NotEnoughSpace
      else Except.ok (s * bs)) = _
  rw [hm]

/-- On an empty catalog the free-range map is the single initial range of
2 * BLOCK_COUNT blocks starting at 0, so the request succeeds at address
0 exactly when it is at most 2 * BLOCK_COUNT * BLOCK_SIZE bytes. -/
theorem ffs_empty {bs blocks : ℕ} (len : ℕ) (h2B : 2 * blocks < 65536) :
    findFreeSpace bs blocks [] len =
      if 2 * blocks * bs < len then .error .NotEnoughSpace else .ok 0 := by
  have hX : u16 (u16 blocks * 2) = 2 * blocks := by
    rw [u16_eq_of_lt (show blocks < 65536 by omega)]
    unfold u16
    rw [Nat.mod_eq_of_lt (by omega)]
    ring
  have hR : fsRanges bs blocks [] = .ok [(0, 2 * blocks)] := by
    unfold fsRanges
    simp only [fsBuild, hX]
    unfold fsWrapFix
    simp [lastStart]
  have hM : maxByLen [(0, 2 * blocks)] = some (0, 2 * blocks) := by
    simp [maxByLen, maxStep]
  rw [ffs_of_max_some hR hM]
  by_cases hc : 2 * blocks * bs < len
  · rw [if_pos hc, if_pos hc]
  · rw [if_neg hc, if_neg hc]
    simp

/-- C4 (amended): the free block intervals are computed against a canvas
of 2 * BLOCK_COUNT blocks (u16 lengths), then the wraparound fixup runs;
the longest resulting free interval is chosen (the last one among ties);
the result is NotEnoughSpace exactly when the byte length of that
interval is below the request and NoFreeSpace exactly when no free
interval remains, while FilesystemError is exactly a failure of the
range computation (a live file without a surrounding free range, or a
wraparound fixup that finds no free range starting at block 0); because
range lengths are u16 block counts, a request longer than
65535 * BLOCK_SIZE bytes always fails; and on an empty filesystem a
request of up to 2 * BLOCK_SIZE * BLOCK_COUNT bytes is granted at
address 0 while a longer one fails, rather than the claimed bound of
BLOCK_SIZE * BLOCK_COUNT. -/
theorem c4_find_free_space_spec (bs blocks : ℕ) (files : List FsEntry)
    (len : ℕ) :
    (findFreeSpace bs blocks files len = .error .FilesystemError ↔
      fsRanges bs blocks files = .error .FilesystemError) ∧
    (findFreeSpace bs blocks files len = .error .NoFreeSpace ↔
      fsRanges bs blocks files = .ok []) ∧
    (∀ r s l, fsRanges bs blocks files = .ok r → maxByLen r = some (s, l) →
      (l * bs < len → findFreeSpace bs blocks files len = .error .NotEnoughSpace) ∧
      (len ≤ l * bs → findFreeSpace bs blocks files len = .ok (s * bs))) ∧
    (65535 * bs < len → ∀ a, findFreeSpace bs blocks files len ≠ .ok a) ∧
    (2 * blocks < 65536 →
      (len ≤ 2 * blocks * bs → findFreeSpace bs blocks [] len = .ok 0) ∧
      (2 * blocks * bs < len →
        findFreeSpace bs blocks [] len = .error .NotEnoughSpace)) := by
  refine ⟨?_, ?_, ?_, ?_, ?_⟩
  · constructor
    · intro h
      rcases hr : fsRanges bs blocks files with e | r
      · rw [ffs_of_ranges_error  hr] at h
        cases h
        rfl
      · rcases hm : maxByLen r with _ | ⟨s, l⟩
        · rw [ffs_of_max_none  hr hm] at h
          simp at h
        · rw [ffs_of_max_some  hr hm] at h
          split at h <;> simp at h
    · intro h
      exact ffs_of_ranges_error h
  · constructor
    · intro h
      rcases hr : fsRanges bs blocks files with e | r
      · rw [ffs_of_ranges_error  hr] at h
        cases h
        have := fsRanges_error hr
        simp at this
      · rcases hm : maxByLen r with _ | ⟨s, l⟩
        · rw [maxByLen_eq_none.mp hm]
        · rw [ffs_of_max_some  hr hm] at h
          split at h <;> simp at h
    · intro h
      exact ffs_of_max_none h rfl
  · intro r s l hr hm
    constructor
    · intro hlt
      rw [ffs_of_max_some hr hm, if_pos hlt]
    · intro hle
      rw [ffs_of_max_some hr hm, if_neg (by omega)]
  · intro hlen a
    rcases hr : fsRanges bs blocks files with e | r
    · rw [ffs_of_ranges_error  hr]
      simp
    · rcases hm : maxByLen r with _ | ⟨s, l⟩
      · rw [ffs_of_max_none  hr hm]
        simp
      · have hl : l < 65536 := fsRanges_ok_lt hr (s, l) (maxByLen_mem hm)
        have hlt : l * bs < len := by
          calc l * bs ≤ 65535 * bs := Nat.mul_le_mul_right bs (by omega)
          _ < len := hlen
        rw [ffs_of_max_some hr hm, if_pos hlt]
        simp
  · intro h2B
    constructor
    · intro hle
      rw [ffs_empty len h2B, if_neg (by omega)]
    · intro hlt
      rw [ffs_empty len h2B, if_pos hlt]

/-- Witness for the amended C4 theorem at concrete inputs. -/
theorem c4_find_free_space_spec_witness :
    findFreeSpace 4096 16 [] 131072 = .ok 0 ∧
    findFreeSpace 4096 16 [] 131073 = .error .NotEnoughSpace :=
  ⟨((c4_find_free_space_spec 4096 16 [] 131072).2.2.2.2 (by norm_num)).1
      (by norm_num),
    ((c4_find_free_space_spec 4096 16 [] 131073).2.2.2.2 (by norm_num)).2
      (by norm_num)⟩

/-! ## Claim C2 -/

/-- find_free_space over a catalog holding one file at address 0 whose
occupied interval is k = ceil((L + 64) / BLOCK_SIZE) blocks with k at
most BLOCK_COUNT: the free-range map becomes the single range
[k, 2 * BLOCK_COUNT), so the request is granted at block k exactly when
it fits into (2 * BLOCK_COUNT - k) blocks. -/
theorem ffs_single {bs B L : ℕ} (len : ℕ) (n : List ℕ) (s : ℕ) (m : Bool)
    (hbs : 0 < bs) (hB : 0 < B) (h2B : 2 * B < 65536)
    (hk : divCeil (L + 64) bs ≤ B) :
    findFreeSpace bs B [⟨0, L, n, s, m⟩] len =
      if (2 * B - divCeil (L + 64) bs) * bs < len then .error .NotEnoughSpace
      else .ok (divCeil (L + 64) bs * bs) := by
  have hkpos : 1 ≤ divCeil (L + 64) bs := by
    unfold divCeil
    rw [Nat.le_div_iff_mul_le hbs]
    omega
  have hkod : divCeil (L + 64) bs < 65536 := by omega
  have hX : u16 (u16 B * 2) = 2 * B := by
    rw [u16_eq_of_lt (show B < 65536 by omega)]
    unfold u16
    rw [Nat.mod_eq_of_lt (by omega)]
    ring
  have hEnd : fsEndBlock bs ⟨0, L, n, s, m⟩ = divCeil (L + 64) bs := by
    show u16 (u16 0 + u16 (divCeil (L + 64) bs)) = _
    rw [show u16 0 = 0 from rfl, Nat.zero_add, u16_eq_of_lt hkod,
      u16_eq_of_lt hkod]
  have hfind : rFindLE 0 [(0, 2 * B)] = some (0, 2 * B) := by
    simp [rFindLE]
  have hstep : fsStep bs [(0, 2 * B)] ⟨0, L, n, s, m⟩ =
      .ok [(divCeil (L + 64) bs, 2 * B - divCeil (L + 64) bs)] := by
    unfold fsStep
    show (match rFindLE (u16 0) [(0, 2 * B)] with
      | none => Except.error FindFreeSpaceError.FilesystemError
      | some (s₁, l₁) =>
        Except.ok (fsCarve [(0, 2 * B)] s₁ (u16 0)
          (fsEndBlock bs ⟨0, L, n, s, m⟩) (wsub16 (u16 0) s₁)
          (wsub16 (u16 (s₁ + l₁)) (fsEndBlock bs ⟨0, L, n, s, m⟩)))) = _
    rw [show u16 0 = 0 from rfl, hfind]
    show Except.ok (fsCarve [(0, 2 * B)] 0 0 (fsEndBlock bs ⟨0, L, n, s, m⟩)
      (wsub16 0 0) (wsub16 (u16 (0 + 2 * B)) (fsEndBlock bs ⟨0, L, n, s, m⟩))) = _
    rw [hEnd, show wsub16 0 0 = 0 from rfl, Nat.zero_add,
      u16_eq_of_lt (show 2 * B < 65536 by omega),
      wsub16_of_le (show divCeil (L + 64) bs ≤ 2 * B by omega)]
    unfold fsCarve
    rw [if_neg (by omega), if_pos rfl]
    simp [rRemove, rInsert]
  have hR : fsRanges bs B [⟨0, L, n, s, m⟩] =
      .ok [(divCeil (L + 64) bs, 2 * B - divCeil (L + 64) bs)] := by
    unfold fsRanges fsBuild
    rw [hX, hstep]
    show fsWrapFix B [(divCeil (L + 64) bs, 2 * B - divCeil (L + 64) bs)] = _
    have hcond : lastStart [(divCeil (L + 64) bs, 2 * B - divCeil (L + 64) bs)] -
        u16 B = 0 := by
      show divCeil (L + 64) bs - u16 B = 0
      rw [u16_eq_of_lt (show B < 65536 by omega)]
      omega
    unfold fsWrapFix
    rw [if_pos hcond]
  have hM : maxByLen [(divCeil (L + 64) bs, 2 * B - divCeil (L + 64) bs)] =
      some (divCeil (L + 64) bs, 2 * B - divCeil (L + 64) bs) := by
    simp [maxByLen, maxStep]
  rw [ffs_of_max_some hR hM]

theorem cleanup_keep (e : FsEntry) (he : noStrongRefsLeft e = false) :
    cleanupFiles ⟨[e]⟩ = ⟨[e]⟩ := by
  unfold cleanupFiles
  simp [List.range_succ, he]

theorem cleanup_drop (e : FsEntry) (he : noStrongRefsLeft e = true) :
    cleanupFiles ⟨[e]⟩ = ⟨[]⟩ := by
  unfold cleanupFiles
  simp [List.range_succ, he, swapRemove]

theorem dropStrong_single (L t : ℕ) (n₁ : List ℕ) (mk : Bool) :
    dropStrongRef ⟨[⟨0, L, n₁, t, mk⟩]⟩ n₁ = ⟨[⟨0, L, n₁, t - 1, mk⟩]⟩ := by
  unfold dropStrongRef findIdxQ findIdxFrom
  simp

theorem dropStrong_iter (L : ℕ) (n₁ : List ℕ) (t : ℕ) (mk : Bool) :
    ∀ j : ℕ, (fun st => dropStrongRef st n₁)^[j] ⟨[⟨0, L, n₁, t, mk⟩]⟩ =
      ⟨[⟨0, L, n₁, t - j, mk⟩]⟩ := by
  intro j
  induction j generalizing t with
  | zero => simp
  | succ j ih =>
    rw [Function.iterate_succ_apply]
    show (fun st => dropStrongRef st n₁)^[j] (dropStrongRef ⟨[⟨0, L, n₁, t, mk⟩]⟩ n₁) = _
    rw [dropStrong_single, ih]
    have harith : t - 1 - j = t - (j + 1) := by omega
    rw [harith]

/-- C2: deleting a file that still has outstanding strong references
keeps its catalog entry; a subsequent write_file whose content does not
fit into the free space excluding the region of that entry fails and
leaves the catalog unchanged; and once the last strong reference has
been dropped, the cleanup sweep at the start of the same write_file
removes the entry and the write succeeds. Stated for a catalog holding
one live file at address 0 spanning k = ceil((L + 64) / BLOCK_SIZE) of
the BLOCK_COUNT blocks, with s outstanding strong references, a new
content length Lw that exceeds the free space excluding the file
((BLOCK_COUNT - k) * BLOCK_SIZE bytes) but fits into the freed storage,
and a new name of at most 16 bytes. -/
theorem c2_deferred_reclamation
    (bs B L Lw s : ℕ) (n₁ n₂ : List ℕ)
    (hbs : 0 < bs) (hB : 0 < B) (h2B : 2 * B < 65536)
    (hk : divCeil (L + 64) bs ≤ B)
    (hs : 1 ≤ s)
    (hn₂ : n₂.length ≤ 16)
    (hfail : (B - divCeil (L + 64) bs) * bs < Lw + 64)
    (hfit : Lw + 64 ≤ B * bs) :
    deleteFile ⟨[⟨0, L, n₁, s, false⟩]⟩ n₁ = .ok ⟨[⟨0, L, n₁, s, true⟩]⟩ ∧
    (writeFile bs B ⟨[⟨0, L, n₁, s, true⟩]⟩ n₂ Lw).1 =
      ⟨[⟨0, L, n₁, s, true⟩]⟩ ∧
    (writeFile bs B ⟨[⟨0, L, n₁, s, true⟩]⟩ n₂ Lw).2.isSome = true ∧
    writeFile bs B
        ((fun st => dropStrongRef st n₁)^[s] ⟨[⟨0, L, n₁, s, true⟩]⟩) n₂ Lw =
      (⟨[⟨0, Lw, n₂, 0, false⟩]⟩, none) := by
  have hdel : deleteFile ⟨[⟨0, L, n₁, s, false⟩]⟩ n₁ =
      .ok ⟨[⟨0, L, n₁, s, true⟩]⟩ := by
    unfold deleteFile findIdxQ findIdxFrom
    simp only [beq_self_eq_true, if_true, List.getD, List.set]
    show (if (markEntry ⟨0, L, n₁, s, false⟩).strong = 0 then _ else _) = _
    rw [if_neg (by show ¬ s = 0; omega)]
    rfl
  have hkeep : cleanupFiles ⟨[⟨0, L, n₁, s, true⟩]⟩ =
      ⟨[⟨0, L, n₁, s, true⟩]⟩ :=
    cleanup_keep _ (by simp [noStrongRefsLeft]; omega)
  have hmul : (B - divCeil (L + 64) bs) * bs = B * bs - divCeil (L + 64) bs * bs :=
    Nat.sub_mul _ _ _
  have hmul₂ : (2 * B - divCeil (L + 64) bs) * bs =
      2 * B * bs - divCeil (L + 64) bs * bs := Nat.sub_mul _ _ _
  have hmul₃ : 2 * B * bs = 2 * (B * bs) := by ring
  have hmc : bs * B = B * bs := Nat.mul_comm bs B
  have hkb : divCeil (L + 64) bs * bs ≤ B * bs := Nat.mul_le_mul_right bs hk
  have hwfail : (writeFile bs B ⟨[⟨0, L, n₁, s, true⟩]⟩ n₂ Lw).1 =
        ⟨[⟨0, L, n₁, s, true⟩]⟩ ∧
      (writeFile bs B ⟨[⟨0, L, n₁, s, true⟩]⟩ n₂ Lw).2.isSome = true := by
    unfold writeFile
    rw [hkeep]
    rw [if_neg (by omega)]
    dsimp only
    rw [ffs_single (Lw + 64) n₁ s true hbs hB h2B hk]
    by_cases hc : (2 * B - divCeil (L + 64) bs) * bs < Lw + 64
    · rw [if_pos hc]
      exact ⟨rfl, rfl⟩
    · rw [if_neg hc]
      dsimp only
      by_cases hc₁ : bs * B < divCeil (L + 64) bs * bs + 64
      · rw [if_pos hc₁]
        exact ⟨rfl, rfl⟩
      · rw [if_neg hc₁, if_pos (by omega)]
        exact ⟨rfl, rfl⟩
  refine ⟨hdel, hwfail.1, hwfail.2, ?_⟩
  rw [dropStrong_iter L n₁ s true s]
  have hdropall : s - s = 0 := by omega
  rw [hdropall]
  have hclean : cleanupFiles ⟨[⟨0, L, n₁, 0, true⟩]⟩ = ⟨[]⟩ :=
    cleanup_drop _ (by simp [noStrongRefsLeft])
  unfold writeFile
  rw [hclean]
  rw [if_neg (by omega)]
  dsimp only
  rw [ffs_empty (Lw + 64) h2B]
  rw [if_neg (by omega)]
  dsimp only
  rw [if_neg (by omega), if_neg (by omega)]
  simp

/-- Witness for the C2 theorem: BLOCK_SIZE 4096, BLOCK_COUNT 16, one file
of 65472 bytes filling the whole storage with one Reader, a write of the
same size. -/
theorem c2_deferred_reclamation_witness :
    deleteFile ⟨[⟨0, 65472, [102], 1, false⟩]⟩ [102] =
      .ok ⟨[⟨0, 65472, [102], 1, true⟩]⟩ ∧
    (writeFile 4096 16 ⟨[⟨0, 65472, [102], 1, true⟩]⟩ [103] 65472).1 =
      ⟨[⟨0, 65472, [102], 1, true⟩]⟩ ∧
    (writeFile 4096 16 ⟨[⟨0, 65472, [102], 1, true⟩]⟩ [103] 65472).2.isSome = true ∧
    writeFile 4096 16
        ((fun st => dropStrongRef st [102])^[1] ⟨[⟨0, 65472, [102], 1, true⟩]⟩)
        [103] 65472 =
      (⟨[⟨0, 65472, [103], 0, false⟩]⟩, none) :=
  c2_deferred_reclamation 4096 16 65472 65472 1 [102] [103]
    (by decide) (by decide) (by decide) (by decide) (by decide)
    (by decide) (by decide) (by decide)

/-! ## Claim C3 -/

/-- A probe flash image for the mount scan: a valid file of length 4032
bytes parses at block 0 (content plus 64 byte metadata is exactly one
4096 byte block), a valid file of length 100 parses at block 1, and no
other block holds valid metadata. -/
def scanProbe : ℕ → Option ℕ :=
  fun b => if b = 0 then some 4032 else if b = 1 then some 100 else none

/-- C3 counterexample: the claim states that after a parsed file the scan
advances by exactly ceil((length + 64) / BLOCK_SIZE) blocks. The code
advances by (length + 64) / BLOCK_SIZE + 1 blocks, one more than the
ceiling when length + 64 is an exact multiple of BLOCK_SIZE: scanning the
probe image with BLOCK_SIZE 4096 and 16 blocks, the code skips from
block 0 over block 1 and misses the file there, while the scan described
by the claim finds it. -/
theorem c3_scan_skips_block :
    mountScan scanProbe 0 16 4096 = [(0, 4032)] ∧
    claimScan scanProbe 0 16 4096 = [(0, 4032), (1, 100)] ∧
    (1, 100) ∉ mountScan scanProbe 0 16 4096 :=
  ⟨by rfl, by rfl, by decide⟩

theorem divCeil_of_not_dvd {a b : ℕ} (hb : 0 < b) (h : a % b ≠ 0) :
    divCeil a b = a / b + 1 := by
  have hm := Nat.div_add_mod a b
  have hl : a % b < b := Nat.mod_lt _ hb
  have hcm : (a / b + 1) * b = b * (a / b) + b := by ring
  have hcm₂ : (a / b + 1 + 1) * b = b * (a / b) + b + b := by ring
  unfold divCeil
  exact Nat.div_eq_of_lt_le (by omega) (by omega)

/-- C3 (amended): the mount scan starts at first_block, wraps modulo the
block count, pushes a catalog entry for every block where a valid file
metadata parses, and advances by (length + 64) / BLOCK_SIZE + 1 blocks
after a parsed file and by one block otherwise; the advance equals
ceil((length + 64) / BLOCK_SIZE) except when length + 64 is an exact
multiple of BLOCK_SIZE, where it is one block more. -/
theorem c3_scan_advance (parse : ℕ → Option ℕ) (firstBlock blocks bs : ℕ)
    (hbs : 0 < bs) :
    mountScan parse firstBlock blocks bs =
      amendedScan parse firstBlock blocks bs := by
  have key : ∀ gas bn, mountScanGo parse firstBlock blocks bs gas bn =
      amendedScanGo parse firstBlock blocks bs gas bn := by
    intro gas
    induction gas with
    | zero => intro bn; rfl
    | succ gas ih =>
      intro bn
      simp only [mountScanGo, amendedScanGo]
      by_cases hlt : bn < blocks
      · rw [if_pos hlt, if_pos hlt]
        cases hp : parse ((bn + firstBlock) % blocks) with
        | none =>
          dsimp only
          rw [ih]
        | some len =>
          dsimp only
          have hadv : max 1 (if (len + 64) % bs = 0
              then (len + 64) / bs + 1 else divCeil (len + 64) bs) =
              (len + 64) / bs + 1 := by
            by_cases hdvd : (len + 64) % bs = 0
            · rw [if_pos hdvd]
              exact max_eq_right (Nat.le_add_left 1 _)
            · rw [if_neg hdvd, divCeil_of_not_dvd hbs hdvd]
              exact max_eq_right (Nat.le_add_left 1 _)
          rw [ih, hadv]
      · rw [if_neg hlt, if_neg hlt]
  exact key blocks 0

/-- Witness for the amended C3 theorem: the probe image scan agrees with
the amended description. -/
theorem c3_scan_advance_witness :
    mountScan scanProbe 0 16 4096 = amendedScan scanProbe 0 16 4096 :=
  c3_scan_advance scanProbe 0 16 4096 (by norm_num)

/-! ## Claim C5 -/

theorem usizeSub_one_of_pos {n : ℕ} (h : 1 ≤ n) : usizeSub n 1 = n - 1 := by
  unfold usizeSub
  rw [if_pos h]

/-- C5: receive_chunk for an active upload and an in-range index fails
with InvalidLength exactly when the payload length is wrong: different
from chunk_size when the index is not the last chunk, different from
total_length mod chunk_size when it is the last chunk (index equal to
chunk_count - 1); with correct length it fails with WrongChecksum exactly
when the CRC-8 LTE checksum of the payload differs from
checksums[index]; and otherwise it records the write of the payload at
offset index * chunk_size and marks received[index]. Stated under the
session invariant that the received bitmap is sized like the checksum
table, and for a positive chunk size (the source computes
length mod chunk_size, which panics for chunk size zero). -/
theorem c5_receive_chunk_checks (f : IncompleteFile) (data : List ℕ)
    (index : ℕ)
    (hinv : f.receivedChunks.length = f.checksums.length)
    (hidx : index < f.checksums.length)
    (hcl : 0 < f.chunkLength) :
    ((index ≠ f.checksums.length - 1 ∧ data.length ≠ f.chunkLength) ∨
        (index = f.checksums.length - 1 ∧
          data.length ≠ f.length % f.chunkLength) →
      receiveChunk f data index = some (.error .InvalidLength)) ∧
    (∀ c, f.checksums[index]? = some c →
      (index = f.checksums.length - 1 →
        data.length = f.length % f.chunkLength) →
      (index ≠ f.checksums.length - 1 → data.length = f.chunkLength) →
      (c ≠ crc8lte data →
        receiveChunk f data index = some (.error .WrongChecksum)) ∧
      (c = crc8lte data →
        receiveChunk f data index = some (.ok { f with
          writes := f.writes ++ [(f.chunkLength * index, data)]
          receivedChunks := f.receivedChunks.set index true }))) := by
  have hlast : usizeSub f.checksums.length 1 = f.checksums.length - 1 :=
    usizeSub_one_of_pos (by omega)
  constructor
  · intro h
    unfold receiveChunk
    rw [hlast]
    rcases h with ⟨hne, hlen⟩ | ⟨heq, hlen⟩
    · rw [if_pos ⟨hne, hlen⟩]
    · rw [if_neg (by tauto), if_pos heq, if_neg (by omega), if_pos hlen]
  · intro c hc hl1 hl2
    have hrest : receiveChunk f data index = receiveChunkRest f data index := by
      unfold receiveChunk
      rw [hlast]
      by_cases hil : index = f.checksums.length - 1
      · rw [if_neg (by tauto), if_pos hil, if_neg (by omega),
          if_neg (by rw [hl1 hil]; exact fun h => h rfl)]
      · rw [if_neg (by rw [hl2 hil]; exact fun h => h.2 rfl), if_neg hil]
    constructor
    · intro hne
      rw [hrest]
      unfold receiveChunkRest
      rw [hc]
      show (if c ≠ crc8lte data then _ else _) = _
      rw [if_pos hne]
    · intro heqc
      rw [hrest]
      unfold receiveChunkRest
      rw [hc]
      show (if c ≠ crc8lte data then _
        else if index < f.receivedChunks.length then _ else _) = _
      rw [if_neg (by exact fun h => h heqc), if_pos (by omega)]

/-- Witness for the C5 theorem: a one-chunk session receiving its last
chunk of three bytes with the correct CRC-8 LTE checksum. -/
theorem c5_receive_chunk_checks_witness :
    receiveChunk (IncompleteFile.new [0] [crc8lte [1, 2, 3]] 4 3) [1, 2, 3] 0 =
      some (.ok { IncompleteFile.new [0] [crc8lte [1, 2, 3]] 4 3 with
        writes := [] ++ [(4 * 0, [1, 2, 3])]
        receivedChunks :=
          (List.replicate 1 false).set 0 true }) :=
  ((c5_receive_chunk_checks (IncompleteFile.new [0] [crc8lte [1, 2, 3]] 4 3)
      [1, 2, 3] 0 (by decide) (by decide) (by decide)).2
    (crc8lte [1, 2, 3]) (by rfl) (by intro h; rfl)
    (by intro h; exact absurd rfl h)).2 rfl

/-! ## Claim C10 -/

/-- C10: receive_chunk never checks the chunk index against the chunk
count: for an index at least chunk_count whose payload length equals
chunk_size, both length checks pass and the code reaches the
out-of-bounds access checksums[index], a panic (modelled as none) rather
than an upload error, so totality of receive_chunk requires the
precondition index < chunk_count. The index bound 65536 reflects that
data_write decodes the index from two little-endian bytes. -/
theorem c10_receive_chunk_oob (f : IncompleteFile) (data : List ℕ)
    (index : ℕ)
    (hge : f.checksums.length ≤ index) (h16 : index < 65536)
    (hlen : data.length = f.chunkLength) :
    receiveChunk f data index = none := by
  have hne : index ≠ usizeSub f.checksums.length 1 := by
    unfold usizeSub
    split
    · omega
    · have hc0 : f.checksums.length = 0 := by omega
      rw [hc0]
      intro hcontra
      rw [show (0 + 18446744073709551616 - 1) % 18446744073709551616 =
        18446744073709551615 from by norm_num] at hcontra
      omega
  have hoob : f.checksums[index]? = none :=
    List.getElem?_eq_none (by omega)
  unfold receiveChunk
  rw [if_neg (fun h => h.2 hlen), if_neg hne]
  unfold receiveChunkRest
  rw [hoob]

/-- Witness for the C10 theorem: a one-chunk session receiving index 1
with a payload of the configured chunk size panics. -/
theorem c10_receive_chunk_oob_witness :
    receiveChunk (IncompleteFile.new [0] [7] 4 3) [1, 2, 3, 4] 1 = none :=
  c10_receive_chunk_oob (IncompleteFile.new [0] [7] 4 3) [1, 2, 3, 4] 1
    (by decide) (by decide) (by decide)

/-! ## Claim C6 -/

/-- C6: when an upload is started, a chunk count of at most 32 makes the
session checksums exactly the first chunk_count bytes of the 32 checksum
bytes of the request; a larger chunk count treats those 32 bytes as the
hash of a previously uploaded checksums file, and starting fails with
ChecksumFileDoesNotExist when no file with that hash exists, and with
WrongNumberOfChecksums when the content length of that file differs from
the chunk count. -/
theorem c6_checksums_descriptor
    (getFile : List ℕ → Option (Except UpgradeFileError (List ℕ)))
    (req : UploadRequest) :
    (req.chunkCount ≤ 32 →
      startUpload getFile (.ok ()) req =
        .ok (IncompleteFile.new req.hash (req.checksums.take req.chunkCount)
          req.chunkSize req.fileSize)) ∧
    (32 < req.chunkCount →
      (getFile req.checksums = none →
        startUpload getFile (.ok ()) req =
          .error .ChecksumFileDoesNotExist) ∧
      (∀ content, getFile req.checksums = some (.ok content) →
        content.length ≠ req.chunkCount →
        startUpload getFile (.ok ()) req =
          .error (.WrongNumberOfChecksums req.chunkCount content.length))) := by
  constructor
  · intro hle
    unfold startUpload loadChecksums
    rw [if_pos hle]
  · intro hgt
    constructor
    · intro hnone
      unfold startUpload loadChecksums
      rw [if_neg (by omega), hnone]
    · intro content hsome hne
      unfold startUpload loadChecksums
      rw [if_neg (by omega), hsome]
      show (match (if content.length ≠ req.chunkCount then _ else _ :
        Except FileUploadError (List ℕ)) with
        | .error e => Except.error e
        | .ok cks => _) = _
      rw [if_pos hne]

/-- Witness for the C6 theorem: an inline-checksums request of ten chunks
and an indirect request of 33 chunks whose checksums file is absent. -/
theorem c6_checksums_descriptor_witness :
    startUpload (fun _ => none) (.ok ())
        ⟨List.replicate 32 7, List.replicate 32 9, 100, 10⟩ =
      .ok (IncompleteFile.new (List.replicate 32 7)
        ((List.replicate 32 9).take
          (UploadRequest.chunkCount ⟨List.replicate 32 7, List.replicate 32 9, 100, 10⟩))
        10 100) ∧
    startUpload (fun _ => none) (.ok ())
        ⟨List.replicate 32 7, List.replicate 32 9, 330, 10⟩ =
      .error .ChecksumFileDoesNotExist :=
  ⟨(c6_checksums_descriptor (fun _ => none)
      ⟨List.replicate 32 7, List.replicate 32 9, 100, 10⟩).1 (by decide),
    ((c6_checksums_descriptor (fun _ => none)
      ⟨List.replicate 32 7, List.replicate 32 9, 330, 10⟩).2 (by decide)).1 rfl⟩

/-! ## Claim C7 -/

/-- C7: during a yield, every BLE event delivered to the on_event entry
point of the guest runs with the fuel set to reset_fuel (recorded in the
call trace) while the fuel recorded before the callback is restored
after it (the fuel after the whole drain equals the fuel before it); a
ProgramChanged event makes yield return an error; and after the waiting
period the fuel is set to reset_fuel and yield returns reset_fuel, whose
default value is 999999. -/
theorem c7_yield_fuel_events (resetFuel : ℕ) (onEvent : ℕ → ℕ → Option ℕ)
    (events : List HostEvent) (st : GuestState) :
    (HostEvent.programChanged ∉ events →
      (∀ e, HostEvent.bleEvent e ∈ events → onEvent e resetFuel ≠ none) →
      processEvents resetFuel onEvent events st =
        .ok ⟨st.fuel, st.calls ++ bleCallsOf resetFuel events⟩ ∧
      yieldNow resetFuel onEvent events st =
        .ok (resetFuel,
          ⟨resetFuel, st.calls ++ bleCallsOf resetFuel events⟩)) ∧
    (∀ pre post, events = pre ++ HostEvent.programChanged :: post →
      HostEvent.programChanged ∉ pre →
      (∀ e, HostEvent.bleEvent e ∈ pre → onEvent e resetFuel ≠ none) →
      ∃ msg, yieldNow resetFuel onEvent events st = .error msg) ∧
    defaultResetFuel = 999999 := by
  have hmain : ∀ evs : List HostEvent, ∀ st₀ : GuestState,
      HostEvent.programChanged ∉ evs →
      (∀ e, HostEvent.bleEvent e ∈ evs → onEvent e resetFuel ≠ none) →
      processEvents resetFuel onEvent evs st₀ =
        .ok ⟨st₀.fuel, st₀.calls ++ bleCallsOf resetFuel evs⟩ := by
    intro evs
    induction evs with
    | nil =>
      intro st₀ _ _
      simp [processEvents, bleCallsOf]
    | cons ev rest ih =>
      intro st₀ hpc hok
      cases ev with
      | programChanged => exact absurd (by simp) hpc
      | bleEvent e =>
        have hsome : onEvent e resetFuel ≠ none := hok e (by simp)
        rcases ho : onEvent e resetFuel with _ | v
        · exact absurd ho hsome
        · show (match onEvent e resetFuel with
            | none => Except.error "guest callback failed"
            | some _ => processEvents resetFuel onEvent rest
                { fuel := st₀.fuel,
                  calls := st₀.calls ++ [(e, resetFuel)] }) = _
          rw [ho]
          rw [ih { fuel := st₀.fuel, calls := st₀.calls ++ [(e, resetFuel)] }
            (fun hmem => hpc (by simp [hmem]))
            (fun e₁ hmem => hok e₁ (by simp [hmem]))]
          show Except.ok _ = Except.ok _
          have hcalls : (st₀.calls ++ [(e, resetFuel)]) ++
              bleCallsOf resetFuel rest =
              st₀.calls ++ bleCallsOf resetFuel (HostEvent.bleEvent e :: rest) := by
            show _ = st₀.calls ++ ((e, resetFuel) :: bleCallsOf resetFuel rest)
            rw [List.append_assoc]
            rfl
          rw [hcalls]
  refine ⟨?_, ?_, rfl⟩
  · intro hpc hok
    have h₁ := hmain events st hpc hok
    refine ⟨h₁, ?_⟩
    unfold yieldNow
    rw [h₁]
  · intro pre post hsplit hpc hok
    subst hsplit
    have herr : processEvents resetFuel onEvent
        (pre ++ HostEvent.programChanged :: post) st =
        .error "Terminated as requested" := by
      induction pre generalizing st with
      | nil => rfl
      | cons ev rest ih =>
        cases ev with
        | programChanged => exact absurd (by simp) hpc
        | bleEvent e =>
          have hsome : onEvent e resetFuel ≠ none := hok e (by simp)
          rcases ho : onEvent e resetFuel with _ | v
          · exact absurd ho hsome
          · show (match onEvent e resetFuel with
              | none => Except.error "guest callback failed"
              | some _ => processEvents resetFuel onEvent
                  (rest ++ HostEvent.programChanged :: post)
                  { fuel := st.fuel,
                    calls := st.calls ++ [(e, resetFuel)] }) = _
            rw [ho]
            exact ih _ (fun hmem => hpc (by simp [hmem]))
              (fun e₁ hmem => hok e₁ (by simp [hmem]))
    refine ⟨"Terminated as requested", ?_⟩
    unfold yieldNow
    rw [herr]

/-- Witness for the C7 theorem: one BLE event with an identity guest
callback, then a ProgramChanged cancellation. -/
theorem c7_yield_fuel_events_witness :
    yieldNow 999999 (fun _ fuel => some fuel) [HostEvent.bleEvent 5]
        ⟨0, []⟩ =
      .ok (999999,
        ⟨999999, ([] : List (ℕ × ℕ)) ++ bleCallsOf 999999 [HostEvent.bleEvent 5]⟩) ∧
    (∃ msg, yieldNow 999999 (fun _ fuel => some fuel)
        [HostEvent.programChanged] ⟨0, []⟩ = .error msg) :=
  ⟨((c7_yield_fuel_events 999999 (fun _ fuel => some fuel)
      [HostEvent.bleEvent 5] ⟨0, []⟩).1 (by decide)
      (fun e _ => by simp)).2,
    (c7_yield_fuel_events 999999 (fun _ fuel => some fuel)
      [HostEvent.programChanged] ⟨0, []⟩).2.1 [] []
      rfl (by decide) (fun e hmem => by simp at hmem)⟩

/-! ## Claim C8 -/

/-- C8: the claim states that get_name returns, in full, any stored name
of at most 16 bytes, and otherwise a UTF-8-boundary truncation of at
most 16 bytes from the front. The code computes the boundary but returns
the result of split_off, which is the byte tail after the boundary: for
the 12 byte name rudelblinken it returns the empty string instead of the
name, and for a 20 byte ASCII name it returns the last 4 bytes instead
of the first 16. This theorem evaluates the code at those inputs. -/
theorem c8_get_name_returns_tail :
    getName [114, 117, 100, 101, 108, 98, 108, 105, 110, 107, 101, 110] = [] ∧
    ([114, 117, 100, 101, 108, 98, 108, 105, 110, 107, 101, 110] : List ℕ) ≠ [] ∧
    getName (List.replicate 16 97 ++ [98, 99, 100, 101]) = [98, 99, 100, 101] :=
  ⟨by rfl, by decide, by rfl⟩

/-! ## Claim C9 -/

/-- C9 counterexample: the claim states the name characteristic accepts
only payloads of 4 to 16 bytes of valid UTF-8 and leaves the name
unchanged otherwise; the code accepts up to 32 bytes, so a 17 byte ASCII
payload replaces the stored name. -/
theorem c9_name_write_17_bytes :
    ([97, 98, 99, 100, 101, 102, 103, 104, 105, 106, 107, 108, 109, 110,
      111, 112, 113] : List ℕ).length = 17 ∧
    nameOnWrite ⟨[120]⟩
        [97, 98, 99, 100, 101, 102, 103, 104, 105, 106, 107, 108, 109, 110,
          111, 112, 113] =
      ⟨[97, 98, 99, 100, 101, 102, 103, 104, 105, 106, 107, 108, 109, 110,
        111, 112, 113]⟩ ∧
    (⟨[97, 98, 99, 100, 101, 102, 103, 104, 105, 106, 107, 108, 109, 110,
        111, 112, 113]⟩ : CatManagementState) ≠ ⟨[120]⟩ :=
  ⟨by rfl, by rfl, by decide⟩

/-- C9 (amended): a write to the name characteristic updates the stored
device name exactly when the payload is valid UTF-8 of 4 to 32 bytes;
any other payload leaves the stored name unchanged. -/
theorem c9_name_write_spec (st : CatManagementState) (data : List ℕ) :
    nameOnWrite st data =
      if 4 ≤ data.length ∧ data.length ≤ 32 ∧ validUtf8 data = true
      then ⟨data⟩ else st := by
  unfold nameOnWrite
  by_cases h₁ : data.length ≤ 3
  · rw [if_pos h₁, if_neg (by rintro ⟨h₄, -, -⟩; omega)]
  · rw [if_neg h₁]
    by_cases h₂ : 32 < data.length
    · rw [if_pos h₂, if_neg (by rintro ⟨-, h₃, -⟩; omega)]
    · rw [if_neg h₂]
      by_cases h₃ : validUtf8 data = true
      · rw [if_pos h₃, if_pos ⟨by omega, by omega, h₃⟩]
      · rw [if_neg (by simpa using h₃), if_neg (by rintro ⟨-, -, h₄⟩; exact h₃ h₄)]

end Rudelblinken
